import Mathlib

/-!
Verification of the ORADiscordBOT voice pipeline
(`src/utils/voice_manager.py`, `src/utils/tts_client.py`,
`src/utils/stt_client.py`) against its natural-language specification.

The Python code is shallowly embedded: byte strings become `List Nat`
(each element one byte), PCM sample values become `Int`, monotonic-clock
times become `Int`, and observable effects (gate evaluations, task
scheduling, platform connect/move operations, HTTP posts, lock
operations, temp-file removal) are recorded in explicit event lists.
Fallible Python code is embedded in `Except PyErr`.  Cooperative
(asyncio) interleaving is embedded as a small-step scheduler over
explicit task program counters; a schedule is the list of task ids that
run, in order, one atomic segment (code between suspension points) at a
time.
-/

/-- Exceptions that the embedded Python code can raise.  `valueError` is the
`ValueError` raised by `VoiceVoxClient.synthesize` on blank text,
`runtimeError` the `RuntimeError` it raises on a non-200 HTTP status,
`connectError` any exception from connect/move/listen, `playError` any
exception raised while starting or performing playback, `sttError` any
exception from Whisper transcription. -/
inductive PyErr
  | valueError
  | runtimeError
  | connectError
  | playError
  | sttError
deriving DecidableEq, Repr

/-- Observable events of the capture path: an Activity Gate evaluation
(`HotwordListener._is_speech` called on a flushed chunk), the scheduling of an
asynchronous processing task (`asyncio.create_task(self._process(...))`), a
refresh of the last-activity timestamp (`VoiceManager._mark_active`), and the
spawning of a fresh idle-watchdog task from inside `_mark_active`. -/
inductive VEvent
  | gateEval
  | scheduleTask
  | markActive
  | armWatchdog
deriving DecidableEq, Repr

/-- Decode an unsigned 16-bit word into the signed sample value that
`audioop` sees (two's complement). -/
def s16 (w : Nat) : Int :=
  if w < 32768 then (w : Int) else (w : Int) - 65536

/-- Interpret a byte string as 16-bit little-endian signed samples, as
`audioop.rms(pcm, 2)` does; `none` mirrors `audioop.error` on a byte count
that is not a multiple of the sample width. -/
def toSamples : List Nat → Option (List Int)
  | [] => some []
  | [_] => none
  | b0 :: b1 :: rest => (toSamples rest).map (fun s => s16 (b0 % 256 + 256 * (b1 % 256)) :: s)

/-- Root mean square of a sample list, as computed by `audioop.rms`:
the integer square root of (sum of squared sample values / sample count). -/
def audioopRms (samples : List Int) : Nat :=
  Nat.sqrt ((samples.map (fun s => (s * s).toNat)).sum / samples.length)

/-- Embedding of `HotwordListener._is_speech`: true when the RMS of the PCM
data exceeds 200; an `audioop.error` (odd byte count) yields `false`. -/
def is_speech (pcm : List Nat) : Bool :=
  match toSamples pcm with
  | none => false
  | some samples => decide (200 < audioopRms samples)

/-- Embedding of `HotwordListener.feed` for one speaker: `member` is the
(optional) resolved speaker, `buffer` that speaker's accumulated byte buffer
(buffers of distinct speakers are independent entries of a `defaultdict`),
`pcm` the inbound frame.  Returns the speaker's new buffer and the list of
emitted events.  Mirrors the source: guard on `member is None or not pcm`,
extend the buffer, and when the accumulated length reaches 384000 bytes take
the whole buffer as the chunk, clear the buffer, evaluate the Activity Gate
on the chunk and, if it accepts, schedule one processing task. -/
def feed (member : Option Nat) (buffer pcm : List Nat) : List Nat × List VEvent :=
  if member.isNone || pcm.isEmpty then (buffer, [])
  else
    let buf := buffer ++ pcm
    if 384000 ≤ buf.length then
      (([] : List Nat), VEvent.gateEval :: (if is_speech buf then [VEvent.scheduleTask] else []))
    else (buf, [])

/-- C1 (amended).  Below the 384000-byte threshold `feed` evaluates no gate
and schedules nothing, and the frame is simply appended to the buffer.  On
the call whose append reaches or exceeds the threshold, the gate is evaluated
exactly once on the whole accumulated buffer (even when several thresholds
were crossed by one call), a processing task is scheduled iff the gate
accepts, and the buffer is cleared completely: the bytes in excess of the
threshold travel with the chunk and are not preserved for the next cycle. -/
theorem feed_chunk_threshold (member : Nat) (buffer pcm : List Nat) :
    (buffer.length + pcm.length < 384000 → feed (some member) buffer pcm = (buffer ++ pcm, [])) ∧
    (384000 ≤ buffer.length + pcm.length → pcm ≠ [] →
      (feed (some member) buffer pcm).1 = [] ∧
      (feed (some member) buffer pcm).2.count VEvent.gateEval = 1 ∧
      (feed (some member) buffer pcm).2.count VEvent.scheduleTask
        = (if is_speech (buffer ++ pcm) then 1 else 0)) := by
  constructor
  · intro hlt
    by_cases hp : pcm = []
    · subst hp; simp [feed]
    · have hne : pcm.isEmpty = false := by
        cases pcm with
        | nil => exact absurd rfl hp
        | cons a l => rfl
      have hlen : ¬ 384000 ≤ (buffer ++ pcm).length := by
        simp [List.length_append]; omega
      simp [feed, hne, hlen]
      omega
  · intro hge hp
    have hne : pcm.isEmpty = false := by
      cases pcm with
      | nil => exact absurd rfl hp
      | cons a l => rfl
    have hlen : 384000 ≤ (buffer ++ pcm).length := by
      simp [List.length_append]; omega
    refine ⟨?_, ?_, ?_⟩ <;> cases hs : is_speech (buffer ++ pcm) <;>
      simp [feed, hne, hlen, hge, List.count_cons, hs]

/-- Witness for `feed_chunk_threshold`: a one-byte frame on an empty buffer
stays buffered with no events; a frame that alone reaches the threshold
empties the buffer and evaluates the gate exactly once. -/
theorem feed_chunk_threshold_witness :
    feed (some 0) [] (List.replicate 1 7) = ([7], []) ∧
    (feed (some 0) [] (List.replicate 384000 7)).1 = [] ∧
    (feed (some 0) [] (List.replicate 384000 7)).2.count VEvent.gateEval = 1 := by
  have hlen : (List.replicate 384000 (7 : Nat)).length = 384000 := List.length_replicate 384000 7
  have hge : 384000 ≤ ([] : List Nat).length + (List.replicate 384000 (7 : Nat)).length := by
    rw [hlen]; norm_num
  have hne : (List.replicate 384000 (7 : Nat)) ≠ [] :=
    List.ne_nil_of_length_pos (by rw [hlen]; norm_num)
  refine ⟨?_, ?_, ?_⟩
  · have h := (feed_chunk_threshold 0 [] (List.replicate 1 7)).1
      (by rw [List.length_replicate]; norm_num)
    rw [h, List.nil_append]
    rfl
  · exact ((feed_chunk_threshold 0 [] (List.replicate 384000 7)).2 hge hne).1
  · exact ((feed_chunk_threshold 0 [] (List.replicate 384000 7)).2 hge hne).2.1

/-- Counterexample to C1 as stated.  Feeding 768001 bytes in one call to an
empty buffer crosses the 384000-byte threshold twice and leaves an excess of
1 byte beyond the last threshold, so the claim predicts two gate triggers and
a 1-byte residual left in the buffer; the code evaluates the gate exactly
once and leaves the buffer empty. -/
theorem feed_residual_counterexample :
    (feed (some 0) [] (List.replicate 768001 7)).2.count VEvent.gateEval = 1 ∧
    (feed (some 0) [] (List.replicate 768001 7)).1 = [] ∧
    ¬ ((feed (some 0) [] (List.replicate 768001 7)).2.count VEvent.gateEval = 768001 / 384000 ∧
       (feed (some 0) [] (List.replicate 768001 7)).1.length = 768001 % 384000) := by
  have hlen : (List.replicate 768001 (7 : Nat)).length = 768001 := List.length_replicate 768001 7
  have h := (feed_chunk_threshold 0 [] (List.replicate 768001 7)).2
    (by rw [hlen]; norm_num)
    (List.ne_nil_of_length_pos (by rw [hlen]; norm_num))
  refine ⟨h.2.1, h.1, ?_⟩
  intro hcl
  have h1 : (1 : Nat) = 768001 / 384000 := h.2.1 ▸ hcl.1
  norm_num at h1

/-- First index at which `needle` occurs in `hay`, scanning left to right:
the embedding of Python's `hay.index(needle)` / `needle in hay` for the
wake-phrase search in `HotwordListener._process`. -/
def findSub (needle : List Char) : List Char → Option Nat
  | [] => if needle.isPrefixOf [] then some 0 else none
  | c :: t =>
    if needle.isPrefixOf (c :: t) then some 0
    else (findSub needle t).map (fun i => i + 1)

/-- Per-character lowercasing, the embedding of `transcript.lower()`. -/
def strLower (s : List Char) : List Char := s.map Char.toLower

/-- Embedding of Python's `str.strip()`: drop whitespace from both ends. -/
def pyStrip (s : List Char) : List Char :=
  ((s.dropWhile Char.isWhitespace).reverse.dropWhile Char.isWhitespace).reverse

/-- The fixed wake phrase `"orallm"` searched for by
`HotwordListener._process`. -/
def hotwordKey : List Char := ['o', 'r', 'a', 'l', 'l', 'm']

/-- Embedding of the transcript-handling tail of `HotwordListener._process`:
empty transcript → nothing; wake phrase absent from the lowercased transcript
→ nothing; otherwise the command is the original-case text after the first
occurrence, stripped; an empty command dispatches nothing. -/
def processTranscript (transcript : List Char) : Option (List Char) :=
  if transcript.isEmpty then none
  else
    (findSub hotwordKey (strLower transcript)).bind (fun i =>
      let command := pyStrip (transcript.drop (i + hotwordKey.length))
      if command.isEmpty then none else some command)

/-- Embedding of `HotwordListener._process` as a whole: if the speaker's
processing lock is held the call is a no-op; a transcription failure is
caught and logged; otherwise the transcript is parsed and the callback (when
registered) is invoked with each dispatched command.  The returned list is
the sequence of callback invocations; the `Except` layer records that no
exception escapes. -/
def hotwordProcess (lockHeld : Bool) (stt : Except PyErr (List Char)) (callbackSet : Bool) :
    Except PyErr (List (List Char)) :=
  if lockHeld then Except.ok []
  else
    match stt with
    | Except.error _ => Except.ok []
    | Except.ok transcript =>
      match processTranscript transcript with
      | none => Except.ok []
      | some cmd => if callbackSet then Except.ok [cmd] else Except.ok []
lemma findSub_some_iff (needle hay : List Char) (i : Nat) :
    findSub needle hay = some i ↔
      needle <+: hay.drop i ∧ ∀ j, j < i → ¬ needle <+: hay.drop j := by
  induction hay generalizing i with
  | nil =>
    simp only [findSub, List.drop_nil]
    by_cases hp : needle <+: ([] : List Char)
    · rw [if_pos (List.isPrefixOf_iff_prefix.mpr hp)]
      constructor
      · intro h
        injection h with h
        subst h
        exact ⟨hp, fun j hj => absurd hj (by omega)⟩
      · rintro ⟨-, hmin⟩
        rcases Nat.eq_zero_or_pos i with h0 | h0
        · subst h0; rfl
        · exact absurd hp (hmin 0 h0)
    · rw [if_neg (fun hb => hp (List.isPrefixOf_iff_prefix.mp hb))]
      constructor
      · intro h; cases h
      · rintro ⟨hpre, -⟩; exact absurd hpre hp
  | cons c t ih =>
    by_cases hp : needle <+: (c :: t)
    · rw [show findSub needle (c :: t)
          = if needle.isPrefixOf (c :: t) then some 0
            else (findSub needle t).map (fun k => k + 1) from rfl,
        if_pos (List.isPrefixOf_iff_prefix.mpr hp)]
      constructor
      · intro h
        injection h with h
        subst h
        exact ⟨hp, fun j hj => absurd hj (by omega)⟩
      · rintro ⟨-, hmin⟩
        rcases Nat.eq_zero_or_pos i with h0 | h0
        · subst h0; rfl
        · exact absurd hp (hmin 0 h0)
    · rw [show findSub needle (c :: t)
          = if needle.isPrefixOf (c :: t) then some 0
            else (findSub needle t).map (fun k => k + 1) from rfl,
        if_neg (fun hb => hp (List.isPrefixOf_iff_prefix.mp hb))]
      constructor
      · intro h
        rcases Option.map_eq_some'.mp h with ⟨i0, hfind, hi⟩
        subst hi
        have h0 := (ih i0).mp hfind
        refine ⟨by rw [List.drop_succ_cons]; exact h0.1, ?_⟩
        intro j hj
        cases j with
        | zero => exact hp
        | succ j0 =>
          rw [List.drop_succ_cons]
          exact h0.2 j0 (by omega)
      · rintro ⟨hpre, hmin⟩
        cases i with
        | zero => exact absurd hpre hp
        | succ i0 =>
          refine Option.map_eq_some'.mpr ⟨i0, (ih i0).mpr ⟨?_, ?_⟩, rfl⟩
          · rw [List.drop_succ_cons] at hpre; exact hpre
          · intro j hj
            have := hmin (j + 1) (by omega)
            rw [List.drop_succ_cons] at this
            exact this

lemma processTranscript_eq_some (transcript cmd : List Char) :
    processTranscript transcript = some cmd ↔
      transcript ≠ [] ∧ ∃ i, findSub hotwordKey (strLower transcript) = some i ∧
        cmd = pyStrip (transcript.drop (i + hotwordKey.length)) ∧ cmd ≠ [] := by
  cases transcript with
  | nil => simp [processTranscript]
  | cons c t =>
    cases hfs : findSub hotwordKey (strLower (c :: t)) with
    | none => simp [processTranscript, hfs]
    | some i =>
      by_cases hemp : pyStrip ((c :: t).drop (i + hotwordKey.length)) = []
      · simp only [processTranscript, hfs, Option.some_bind, List.isEmpty_cons,
          Bool.false_eq_true, if_false, hemp, List.isEmpty_nil, if_pos]
        constructor
        · intro h; cases h
        · rintro ⟨-, i2, hi2, hcmd, hne⟩
          injection hi2 with hi2
          subst hi2
          exact absurd (hcmd.trans hemp) hne
      · have hempb : (pyStrip ((c :: t).drop (i + hotwordKey.length))).isEmpty = false := by
          cases he : pyStrip ((c :: t).drop (i + hotwordKey.length)) with
          | nil => exact absurd he hemp
          | cons a l => rfl
        simp only [processTranscript, hfs, Option.some_bind, List.isEmpty_cons,
          Bool.false_eq_true, if_false, hempb, Option.some.injEq]
        constructor
        · intro h
          exact ⟨by simp, i, rfl, h.symm, fun hn => hemp (h ▸ hn)⟩
        · rintro ⟨-, i2, hi2, hcmd, hne⟩
          subst hi2
          exact hcmd.symm

/-- C6.  The hotword listener invokes the callback at most once per chunk,
and it is invoked with command `cmd` exactly when the transcript is nonempty,
the wake phrase `"orallm"` occurs case-insensitively at some position `i`
(and at no earlier position) of the transcript, and `cmd` — the
original-case text after the wake phrase, stripped of surrounding
whitespace — is nonempty.  In particular an empty transcript, an absent wake
phrase, or an all-whitespace remainder dispatch nothing. -/
theorem hotword_wake_phrase_dispatch (transcript cmd : List Char) :
    (∀ lk st cb, ∃ l, hotwordProcess lk st cb = Except.ok l ∧ l.length ≤ 1) ∧
    (hotwordProcess false (Except.ok transcript) true = Except.ok [cmd] ↔
      transcript ≠ [] ∧
        ∃ i, hotwordKey <+: (strLower transcript).drop i ∧
          (∀ j, j < i → ¬ hotwordKey <+: (strLower transcript).drop j) ∧
          cmd = pyStrip (transcript.drop (i + hotwordKey.length)) ∧ cmd ≠ []) := by
  constructor
  · intro lk st cb
    cases lk with
    | true => exact ⟨[], by simp [hotwordProcess], by simp⟩
    | false =>
      cases st with
      | error e => exact ⟨[], by simp [hotwordProcess], by simp⟩
      | ok tr =>
        cases hpt : processTranscript tr with
        | none => exact ⟨[], by simp [hotwordProcess, hpt], by simp⟩
        | some cmd2 =>
          cases cb with
          | true => exact ⟨[cmd2], by simp [hotwordProcess, hpt], by simp⟩
          | false => exact ⟨[], by simp [hotwordProcess, hpt], by simp⟩
  · have hcore : hotwordProcess false (Except.ok transcript) true = Except.ok [cmd] ↔
        processTranscript transcript = some cmd := by
      cases hpt : processTranscript transcript with
      | none => simp [hotwordProcess, hpt]
      | some cmd2 => simp [hotwordProcess, hpt]
    rw [hcore, processTranscript_eq_some]
    constructor
    · rintro ⟨hne, i, hfs, hcmd, hcne⟩
      have h := (findSub_some_iff hotwordKey (strLower transcript) i).mp hfs
      exact ⟨hne, i, h.1, h.2, hcmd, hcne⟩
    · rintro ⟨hne, i, hpre, hmin, hcmd, hcne⟩
      exact ⟨hne, i, (findSub_some_iff hotwordKey (strLower transcript) i).mpr ⟨hpre, hmin⟩,
        hcmd, hcne⟩

/-- Observable state of a guild's voice client: its channel, whether it is a
`voice_recv.VoiceRecvClient`, and whether a capture sink is attached
(`is_listening()`). -/
structure VcState where
  channel : Nat
  isRecv : Bool
  listening : Bool
deriving DecidableEq, Repr

/-- Environment of one `ensure_voice_client` call: the channel the member is
currently in (`none` when not in any voice channel), the guild's existing
voice client, and whether each platform operation would raise. -/
structure EnsureEnv where
  memberChannel : Option Nat
  guildVc : Option VcState
  moveRaises : Bool
  connectRaises : Bool
  listenRaises : Bool
deriving DecidableEq, Repr

/-- Platform and resource operations recorded by the voice-manager embedding:
connect / move / attach-sink calls, a `_mark_active` call, and the playback
steps of `_play_audio` (lock acquire, temp-file write, `voice_client.play`,
a `0.25s` completion poll, the `os.remove` attempt, lock release). -/
inductive VmEvent
  | connectOp
  | moveOp
  | listenOp
  | markActiveOp
  | lockAcquire
  | writeTmp
  | playStartOp
  | pollTick
  | removeAttempt
  | lockRelease
deriving DecidableEq, Repr

/-- The `try:` block of `ensure_voice_client`: move the client when it is in
a different channel; connect and attach a sink when there is none; attach a
sink when a `VoiceRecvClient` is not listening; otherwise do nothing.  An
`Except.error` is an exception raised inside the block; the returned event
list records the platform operations attempted, and the returned environment
the resulting voice-client state. -/
def ensureTryBody (env : EnsureEnv) (ch : Nat) :
    Except PyErr VcState × List VmEvent × EnsureEnv :=
  match env.guildVc with
  | some vc =>
    if vc.channel ≠ ch then
      if env.moveRaises then (Except.error PyErr.connectError, [VmEvent.moveOp], env)
      else
        let vc2 : VcState := { vc with channel := ch }
        (Except.ok vc2, [VmEvent.moveOp], { env with guildVc := some vc2 })
    else if vc.isRecv && !vc.listening then
      if env.listenRaises then (Except.error PyErr.connectError, [VmEvent.listenOp], env)
      else
        let vc2 : VcState := { vc with listening := true }
        (Except.ok vc2, [VmEvent.listenOp], { env with guildVc := some vc2 })
    else (Except.ok vc, [], env)
  | none =>
    if env.connectRaises then (Except.error PyErr.connectError, [VmEvent.connectOp], env)
    else
      let vc1 : VcState := ⟨ch, true, false⟩
      if env.listenRaises then
        (Except.error PyErr.connectError, [VmEvent.connectOp], { env with guildVc := some vc1 })
      else
        let vc2 : VcState := ⟨ch, true, true⟩
        (Except.ok vc2, [VmEvent.connectOp, VmEvent.listenOp], { env with guildVc := some vc2 })

/-- Embedding of `VoiceManager.ensure_voice_client`: `none` member channel →
return `None` untouched; otherwise run the `try:` block, turn any exception
into a logged `None` (the `except Exception` clause), and mark activity on
success.  The outer `Except` layer records whether the call itself raises to
its caller. -/
def ensureVoiceClient (env : EnsureEnv) :
    Except PyErr (Option VcState) × List VmEvent × EnsureEnv :=
  match env.memberChannel with
  | none => (Except.ok none, [], env)
  | some ch =>
    match ensureTryBody env ch with
    | (Except.error _, evs, env2) => (Except.ok none, evs, env2)
    | (Except.ok vc, evs, env2) => (Except.ok (some vc), evs ++ [VmEvent.markActiveOp], env2)

/-- HTTP calls recorded by the `VoiceVoxClient.synthesize` embedding. -/
inductive TtsEvent
  | audioQueryPost
  | synthesisPost
deriving DecidableEq, Repr

/-- Behaviour of the VOICEVOX backend for one `synthesize` call: the HTTP
status of each POST and the audio bytes of a successful synthesis. -/
structure SynthEnv where
  audioQueryStatus : Nat
  synthesisStatus : Nat
  audioBytes : List Nat
deriving DecidableEq, Repr

/-- Embedding of `VoiceVoxClient.synthesize`: blank text raises `ValueError`
before any HTTP call; a non-200 `audio_query` or `synthesis` response raises
`RuntimeError`.  The event list records the HTTP POSTs actually issued. -/
def synthesize (env : SynthEnv) (text : List Char) : Except PyErr (List Nat) × List TtsEvent :=
  if (pyStrip text).isEmpty then (Except.error PyErr.valueError, [])
  else if env.audioQueryStatus ≠ 200 then
    (Except.error PyErr.runtimeError, [TtsEvent.audioQueryPost])
  else if env.synthesisStatus ≠ 200 then
    (Except.error PyErr.runtimeError, [TtsEvent.audioQueryPost, TtsEvent.synthesisPost])
  else (Except.ok env.audioBytes, [TtsEvent.audioQueryPost, TtsEvent.synthesisPost])

/-- Embedding of `VoiceManager._play_audio` for one call: acquire the guild's
playback lock, mark activity, write the synthesized audio to a temp file,
start playback (which may raise), poll completion `polls` times, and in the
`finally:` block attempt `os.remove` — an `OSError` there is logged, not
raised.  Returns the call's outcome, its events in order, and whether the
temp file was actually removed. -/
def playAudio (playRaises removeRaises : Bool) (polls : Nat) :
    Except PyErr Unit × List VmEvent × Bool :=
  let pre : List VmEvent := [VmEvent.lockAcquire, VmEvent.markActiveOp, VmEvent.writeTmp]
  if playRaises then
    (Except.error PyErr.playError,
      pre ++ [VmEvent.playStartOp, VmEvent.removeAttempt, VmEvent.lockRelease],
      !removeRaises)
  else
    (Except.ok (),
      pre ++ [VmEvent.playStartOp] ++ List.replicate polls VmEvent.pollTick
        ++ [VmEvent.removeAttempt, VmEvent.lockRelease],
      !removeRaises)

/-- Environment of one `play_tts` call. -/
structure PlayEnv where
  ensure : EnsureEnv
  synth : SynthEnv
  playRaises : Bool
  removeRaises : Bool
  polls : Nat
deriving DecidableEq, Repr

/-- Outcome of one `play_tts` call: the returned value (or escaping
exception), the voice-manager events, the TTS HTTP events, and the temp-file
state (`none` when no temp file was ever created). -/
structure PlayOutcome where
  result : Except PyErr Bool
  vmEvents : List VmEvent
  ttsEvents : List TtsEvent
  tmpRemoved : Option Bool
deriving Repr

/-- Embedding of `VoiceManager.play_tts`: ensure a voice client (`None` →
return `False`); synthesize, catching any synthesis exception (→ `False`);
then run `_play_audio` — whose exceptions are NOT caught — and return
`True`. -/
def playTts (env : PlayEnv) (text : List Char) : PlayOutcome :=
  match ensureVoiceClient env.ensure with
  | (Except.error er, evs, _) => ⟨Except.error er, evs, [], none⟩
  | (Except.ok none, evs, _) => ⟨Except.ok false, evs, [], none⟩
  | (Except.ok (some _), evs, _) =>
    match synthesize env.synth text with
    | (Except.error _, tev) => ⟨Except.ok false, evs, tev, none⟩
    | (Except.ok _, tev) =>
      match playAudio env.playRaises env.removeRaises env.polls with
      | (Except.error er, pev, removed) => ⟨Except.error er, evs ++ pev, tev, some removed⟩
      | (Except.ok _, pev, removed) => ⟨Except.ok true, evs ++ pev, tev, some removed⟩

lemma ensureVoiceClient_ok (env : EnsureEnv) :
    ∃ v, (ensureVoiceClient env).1 = Except.ok v := by
  cases hm : env.memberChannel with
  | none => exact ⟨none, by simp [ensureVoiceClient, hm]⟩
  | some ch =>
    rcases hb : ensureTryBody env ch with ⟨r, evs, env2⟩
    cases r with
    | error e => exact ⟨none, by simp [ensureVoiceClient, hm, hb]⟩
    | ok vc => exact ⟨some vc, by simp [ensureVoiceClient, hm, hb]⟩

lemma ensureTryBody_events (env : EnsureEnv) (ch : Nat) (e : VmEvent)
    (he : e ∈ (ensureTryBody env ch).2.1) :
    e = VmEvent.connectOp ∨ e = VmEvent.moveOp ∨ e = VmEvent.listenOp := by
  unfold ensureTryBody at he
  repeat' split at he
  all_goals (simp_all; try tauto)

lemma ensureVoiceClient_events (env : EnsureEnv) (e : VmEvent)
    (he : e ∈ (ensureVoiceClient env).2.1) :
    e = VmEvent.connectOp ∨ e = VmEvent.moveOp ∨ e = VmEvent.listenOp
      ∨ e = VmEvent.markActiveOp := by
  cases hm : env.memberChannel with
  | none =>
    rw [show ensureVoiceClient env = (Except.ok none, [], env) from by
      simp [ensureVoiceClient, hm]] at he
    simp at he
  | some ch =>
    rcases hb : ensureTryBody env ch with ⟨r, evs, env2⟩
    have hev : ∀ x ∈ evs, x = VmEvent.connectOp ∨ x = VmEvent.moveOp ∨ x = VmEvent.listenOp := by
      intro x hx
      exact ensureTryBody_events env ch x (by rw [hb]; exact hx)
    cases r with
    | error er =>
      rw [show ensureVoiceClient env = (Except.ok none, evs, env2) from by
        simp [ensureVoiceClient, hm, hb]] at he
      rcases hev e he with h | h | h <;> tauto
    | ok vc =>
      rw [show ensureVoiceClient env
          = (Except.ok (some vc), evs ++ [VmEvent.markActiveOp], env2) from by
        simp [ensureVoiceClient, hm, hb]] at he
      rcases List.mem_append.mp he with h | h
      · rcases hev e h with h2 | h2 | h2 <;> tauto
      · simp at h
        tauto

/-- C9.  A speaker in no voice channel yields the unavailable result with no
platform operation.  For a speaker whose guild connection already sits in the
speaker's channel with capture attached, `ensure_voice_client` performs no
connect or move operation, only marks activity, returns the existing client,
and leaves the state unchanged — so a second call in a row (the state being
unchanged) again performs zero connect/move operations. -/
theorem ensure_connection_idempotent (env : EnsureEnv) :
    (∀ ch, env.memberChannel = some ch → env.guildVc = some ⟨ch, true, true⟩ →
      ensureVoiceClient env
        = (Except.ok (some ⟨ch, true, true⟩), [VmEvent.markActiveOp], env)) ∧
    (env.memberChannel = none → ensureVoiceClient env = (Except.ok none, [], env)) := by
  constructor
  · intro ch h1 h2
    simp [ensureVoiceClient, h1, ensureTryBody, h2]
  · intro h1
    simp [ensureVoiceClient, h1]

/-- Witness for `ensure_connection_idempotent` at a concrete correctly
connected speaker and at a concrete channel-less speaker. -/
theorem ensure_connection_idempotent_witness :
    ensureVoiceClient ⟨some 3, some ⟨3, true, true⟩, false, false, false⟩
      = (Except.ok (some ⟨3, true, true⟩), [VmEvent.markActiveOp],
          ⟨some 3, some ⟨3, true, true⟩, false, false, false⟩) ∧
    ensureVoiceClient ⟨none, none, false, false, false⟩
      = (Except.ok none, [], ⟨none, none, false, false, false⟩) := by
  constructor
  · exact (ensure_connection_idempotent _).1 3 rfl rfl
  · exact (ensure_connection_idempotent _).2 rfl

/-- C7.  Calling `play_tts` with empty text returns `False`, never issues a
VOICEVOX HTTP request (the blank-text `ValueError` is raised before any POST
and caught by `play_tts`), never touches the playback lock, and never creates
a temp file. -/
theorem play_empty_text_returns_false (env : PlayEnv) :
    (playTts env []).result = Except.ok false ∧
    (playTts env []).ttsEvents = [] ∧
    VmEvent.lockAcquire ∉ (playTts env []).vmEvents ∧
    (playTts env []).tmpRemoved = none := by
  have hsynth : synthesize env.synth [] = (Except.error PyErr.valueError, []) := rfl
  have hnolock : ∀ e ∈ (ensureVoiceClient env.ensure).2.1, e ≠ VmEvent.lockAcquire := by
    intro e he
    rcases ensureVoiceClient_events env.ensure e he with h | h | h | h <;> simp [h]
  rcases he : ensureVoiceClient env.ensure with ⟨r, evs, env2⟩
  have hnolock2 : VmEvent.lockAcquire ∉ evs := by
    intro hmem
    exact hnolock VmEvent.lockAcquire (by rw [he]; exact hmem) rfl
  cases r with
  | error er =>
    rcases ensureVoiceClient_ok env.ensure with ⟨v, hv⟩
    rw [he] at hv
    cases hv
  | ok vc =>
    cases vc with
    | none => simp [playTts, he, hnolock2]
    | some vcs => simp [playTts, he, hsynth, hnolock2]

/-- C8.  `_play_audio` attempts to remove the temp file on every exit path —
both when playback runs to completion and when playback raises — the file is
actually gone exactly when the removal does not hit an `OSError`, and a
removal failure never changes the call's outcome: the call succeeds iff
playback itself did not raise. -/
theorem temp_file_always_removed (playRaises removeRaises : Bool) (polls : Nat) :
    VmEvent.removeAttempt ∈ (playAudio playRaises removeRaises polls).2.1 ∧
    (playAudio playRaises removeRaises polls).2.2 = !removeRaises ∧
    (playAudio playRaises removeRaises polls).1
      = (if playRaises then Except.error PyErr.playError else Except.ok ()) := by
  cases playRaises <;> simp [playAudio]

/-- C3 (amended).  Exceptions from the STT, TTS and platform connect/move
collaborators never escape: `ensure_voice_client` always returns normally,
`HotwordListener._process` always returns normally, and `play_tts` returns
normally whenever playback itself does not raise.  (An exception raised while
starting or performing playback, however, escapes `play_tts`: see the
counterexample.) -/
theorem collaborator_errors_contained (env : PlayEnv) (text : List Char) :
    (∃ v, (ensureVoiceClient env.ensure).1 = Except.ok v) ∧
    (∀ lockHeld stt cb, ∃ l, hotwordProcess lockHeld stt cb = Except.ok l) ∧
    (env.playRaises = false → ∃ b, (playTts env text).result = Except.ok b) := by
  refine ⟨ensureVoiceClient_ok env.ensure, ?_, ?_⟩
  · intro lockHeld stt cb
    cases lockHeld with
    | true => exact ⟨[], by simp [hotwordProcess]⟩
    | false =>
      cases stt with
      | error e => exact ⟨[], by simp [hotwordProcess]⟩
      | ok tr =>
        cases hpt : processTranscript tr with
        | none => exact ⟨[], by simp [hotwordProcess, hpt]⟩
        | some cmd =>
          cases cb with
          | true => exact ⟨[cmd], by simp [hotwordProcess, hpt]⟩
          | false => exact ⟨[], by simp [hotwordProcess, hpt]⟩
  · intro hp
    rcases he : ensureVoiceClient env.ensure with ⟨r, evs, env2⟩
    cases r with
    | error er =>
      rcases ensureVoiceClient_ok env.ensure with ⟨v, hv⟩
      rw [he] at hv
      cases hv
    | ok vc =>
      cases vc with
      | none => exact ⟨false, by simp [playTts, he]⟩
      | some vcs =>
        rcases hs : synthesize env.synth text with ⟨sr, tev⟩
        cases sr with
        | error er => exact ⟨false, by simp [playTts, he, hs]⟩
        | ok audio =>
          refine ⟨true, ?_⟩
          have hpa : playAudio env.playRaises env.removeRaises env.polls
              = (Except.ok (),
                  [VmEvent.lockAcquire, VmEvent.markActiveOp, VmEvent.writeTmp]
                    ++ [VmEvent.playStartOp] ++ List.replicate env.polls VmEvent.pollTick
                    ++ [VmEvent.removeAttempt, VmEvent.lockRelease],
                  !env.removeRaises) := by
            rw [hp]
            simp [playAudio]
          simp [playTts, he, hs, hpa]

/-- Witness for `collaborator_errors_contained`: a fully healthy environment
lets `play_tts` return normally. -/
theorem collaborator_errors_contained_witness :
    ∃ b, (playTts ⟨⟨some 1, some ⟨1, true, true⟩, false, false, false⟩, ⟨200, 200, [1]⟩,
      false, false, 2⟩ ['h', 'i']).result = Except.ok b :=
  (collaborator_errors_contained _ _).2.2 rfl

/-- Counterexample to C3 as stated.  `_play_audio` has a `try/finally` but no
`except` clause, and `play_tts` does not wrap the `_play_audio` call, so an
exception raised when starting playback escapes `play_tts` to its caller
instead of being converted into a sentinel `False`. -/
theorem playback_error_escapes_counterexample :
    (playTts ⟨⟨some 1, some ⟨1, true, true⟩, false, false, false⟩, ⟨200, 200, [1]⟩,
      true, false, 0⟩ ['h', 'i']).result = Except.error PyErr.playError := by
  rfl

/-- What the idle watchdog observes at one poll tick (after one
`asyncio.sleep(30)`): the monotonic time, whether `bot.get_guild` still
resolves the guild, and whether the guild still has a voice client. -/
structure Tick where
  now : Int
  guildThere : Bool
  vcThere : Bool
deriving DecidableEq, Repr

/-- The fixed idle timeout `VoiceManager._idle_timeout` (300 seconds). -/
def idleTimeout : Int := 300

/-- Embedding of the loop of `VoiceManager._watch_idle`, supplied with the
observations of successive poll ticks.  Returns `some (k, true)` when the
watchdog disconnects the voice client at tick `k`, `some (k, false)` when it
terminates at tick `k` without disconnecting because the guild or the client
is no longer resolvable, and `none` when the supplied ticks ran out with the
loop still alive.  Mirrors the source order: resolve guild, resolve client,
compare `now - last_activity` against the timeout. -/
def watchIdle (timeout lastActivity : Int) : List Tick → Option (Nat × Bool)
  | [] => none
  | t :: rest =>
    if !t.guildThere then some (0, false)
    else if !t.vcThere then some (0, false)
    else if timeout ≤ t.now - lastActivity then some (0, true)
    else (watchIdle timeout lastActivity rest).map (fun p => (p.1 + 1, p.2))

/-- C5.  With the last-activity timestamp fixed at `last`, if every tick
before tick `k` still resolves guild and client and is strictly below the
timeout, then: when tick `k` resolves both and `now − last` has reached the
timeout, the watchdog disconnects exactly at tick `k` (and at no earlier
tick); when tick `k` no longer resolves the guild or the client, the
watchdog terminates at tick `k` without disconnecting. -/
theorem idle_watchdog_first_crossing (last : Int) (pre : List Tick) (t : Tick)
    (rest : List Tick)
    (hpre : ∀ u ∈ pre, u.guildThere = true ∧ u.vcThere = true ∧ u.now - last < idleTimeout) :
    (t.guildThere = true → t.vcThere = true → idleTimeout ≤ t.now - last →
      watchIdle idleTimeout last (pre ++ t :: rest) = some (pre.length, true)) ∧
    ((t.guildThere = false ∨ t.vcThere = false) →
      watchIdle idleTimeout last (pre ++ t :: rest) = some (pre.length, false)) := by
  induction pre with
  | nil =>
    constructor
    · intro hg hv hge
      simp [watchIdle, hg, hv, hge]
    · intro hgv
      rcases hgv with h | h
      · simp [watchIdle, h]
      · cases hg : t.guildThere with
        | false => simp [watchIdle, hg]
        | true => simp [watchIdle, hg, h]
  | cons u pre2 ih =>
    have hu := hpre u (by simp)
    have hpre2 : ∀ w ∈ pre2, w.guildThere = true ∧ w.vcThere = true
        ∧ w.now - last < idleTimeout := by
      intro w hw
      exact hpre w (by simp [hw])
    have ih2 := ih hpre2
    have hlt : ¬ idleTimeout ≤ u.now - last := by omega
    constructor
    · intro hg hv hge
      simp [watchIdle, hu.1, hu.2.1, hlt, ih2.1 hg hv hge]
    · intro hgv
      simp [watchIdle, hu.1, hu.2.1, hlt, ih2.2 hgv]

/-- Witness for `idle_watchdog_first_crossing`: with activity at time 0 and
ticks at 30-second intervals, the watchdog survives the tick at 290 seconds
and disconnects at the tick at 320 seconds; a vanished guild at the second
tick instead terminates it without a disconnect. -/
theorem idle_watchdog_first_crossing_witness :
    watchIdle idleTimeout 0 [⟨290, true, true⟩, ⟨320, true, true⟩] = some (1, true) ∧
    watchIdle idleTimeout 0 [⟨290, true, true⟩, ⟨320, false, true⟩] = some (1, false) := by
  constructor
  · exact (idle_watchdog_first_crossing 0 [⟨290, true, true⟩] ⟨320, true, true⟩ []
      (by intro u hu; simp at hu; subst hu; refine ⟨rfl, rfl, by norm_num [idleTimeout]⟩)).1
      rfl rfl (by norm_num [idleTimeout])
  · exact (idle_watchdog_first_crossing 0 [⟨290, true, true⟩] ⟨320, false, true⟩ []
      (by intro u hu; simp at hu; subst hu; refine ⟨rfl, rfl, by norm_num [idleTimeout]⟩)).2
      (Or.inl rfl)

/-- A user as seen by the voice-frame sink callback: whether the payload user
object already is a `discord.Member`, and whether `guild.get_member` can
resolve it otherwise. -/
structure FrameUser where
  isMember : Bool
  inGuildCache : Bool
deriving DecidableEq, Repr

/-- Per-guild state touched by `_on_voice_frame`: the last-activity
timestamp, whether an idle-watchdog task is currently alive, and the
speaker's capture buffer. -/
structure GuildState where
  lastActivity : Int
  watchdogAlive : Bool
  buffer : List Nat
deriving DecidableEq, Repr

/-- The member-resolution prelude of `_on_voice_frame`: a `Member` passes
through, a plain `User` goes through `guild.get_member`, no user resolves to
nothing. -/
def resolveMember (user : Option FrameUser) : Option FrameUser :=
  match user with
  | none => none
  | some u => if u.isMember then some u else if u.inGuildCache then some u else none

/-- Embedding of `VoiceManager._mark_active`: refresh the last-activity
timestamp and spawn a fresh idle-watchdog task when none is alive. -/
def markActive (now : Int) (st : GuildState) : GuildState × List VEvent :=
  if st.watchdogAlive then
    ({ st with lastActivity := now }, [VEvent.markActive])
  else
    ({ st with lastActivity := now, watchdogAlive := true },
      [VEvent.markActive, VEvent.armWatchdog])

/-- Embedding of `VoiceManager._on_voice_frame`: resolve the member (drop the
frame when impossible), drop empty payloads, then mark activity and only
afterwards feed the capture buffer (whose flush may evaluate the Activity
Gate). -/
def onVoiceFrame (now : Int) (user : Option FrameUser) (pcmData : Option (List Nat))
    (st : GuildState) : GuildState × List VEvent :=
  match resolveMember user with
  | none => (st, [])
  | some _ =>
    let pcm := pcmData.getD []
    if pcm.isEmpty then (st, [])
    else
      let ma := markActive now st
      let fd := feed (some 0) ma.1.buffer pcm
      ({ ma.1 with buffer := fd.1 }, ma.2 ++ fd.2)

lemma feed_events_cases (m : Option Nat) (b p : List Nat) (e : VEvent)
    (he : e ∈ (feed m b p).2) :
    e = VEvent.gateEval ∨ e = VEvent.scheduleTask := by
  cases hb : (m.isNone || p.isEmpty) with
  | true =>
    rw [show feed m b p = (b, []) from by simp [feed, hb]] at he
    simp at he
  | false =>
    by_cases h2 : 384000 ≤ b.length + p.length
    · cases hs : is_speech (b ++ p) with
      | true =>
        rw [show feed m b p = ([], [VEvent.gateEval, VEvent.scheduleTask]) from by
          simp [feed, hb, List.length_append, h2, hs]] at he
        simp at he
        tauto
      | false =>
        rw [show feed m b p = ([], [VEvent.gateEval]) from by
          simp [feed, hb, List.length_append, h2, hs]] at he
        simp at he
        tauto
    · rw [show feed m b p = (b ++ p, []) from by
        simp [feed, hb, List.length_append, h2]] at he
      simp at he

/-- C10.  A nonempty PCM frame whose user resolves to a guild member
refreshes the guild's last-activity timestamp and leaves a live idle
watchdog, and the `markActive` event strictly precedes any Activity Gate
evaluation (the first event of the call is always the activity mark);
a watchdog is newly armed exactly when none was alive.  A frame with an
unresolvable user or an empty payload changes no state and emits no
event. -/
theorem voice_frame_marks_activity (now : Int) (user : Option FrameUser)
    (pcmData : Option (List Nat)) (st : GuildState) :
    ((resolveMember user).isSome = true → (pcmData.getD []).isEmpty = false →
      (onVoiceFrame now user pcmData st).1.lastActivity = now ∧
      (onVoiceFrame now user pcmData st).1.watchdogAlive = true ∧
      (onVoiceFrame now user pcmData st).2.head? = some VEvent.markActive ∧
      (VEvent.armWatchdog ∈ (onVoiceFrame now user pcmData st).2 ↔
        st.watchdogAlive = false)) ∧
    ((resolveMember user).isSome = false ∨ (pcmData.getD []).isEmpty = true →
      onVoiceFrame now user pcmData st = (st, [])) := by
  constructor
  · intro hres hpcm
    rcases hr : resolveMember user with - | m
    · rw [hr] at hres
      cases hres
    · cases hal : st.watchdogAlive with
      | true =>
        refine ⟨?_, ?_, ?_, ?_⟩ <;>
          simp [onVoiceFrame, hr, hpcm, markActive, hal]
        intro x
        rcases feed_events_cases (some 0) st.buffer (pcmData.getD [])
          VEvent.armWatchdog x with h | h <;> cases h
      | false =>
        refine ⟨?_, ?_, ?_, ?_⟩ <;>
          simp [onVoiceFrame, hr, hpcm, markActive, hal]
  · intro h
    rcases h with h | h
    · rcases hr : resolveMember user with - | m
      · simp [onVoiceFrame, hr]
      · rw [hr] at h
        cases h
    · rcases hr : resolveMember user with - | m
      · simp [onVoiceFrame, hr]
      · simp [onVoiceFrame, hr, h]

/-- Witness for `voice_frame_marks_activity`: a resolvable member with a
one-byte frame refreshes the timestamp and arms the watchdog; an
unresolvable user changes nothing. -/
theorem voice_frame_marks_activity_witness :
    (onVoiceFrame 5 (some ⟨true, true⟩) (some [1]) ⟨0, false, []⟩).1.lastActivity = 5 ∧
    (onVoiceFrame 5 (some ⟨true, true⟩) (some [1]) ⟨0, false, []⟩).2.head?
      = some VEvent.markActive ∧
    onVoiceFrame 5 none (some [1]) ⟨0, false, []⟩ = (⟨0, false, []⟩, []) := by
  refine ⟨?_, ?_, ?_⟩
  · exact ((voice_frame_marks_activity 5 (some ⟨true, true⟩) (some [1])
      ⟨0, false, []⟩).1 rfl rfl).1
  · exact ((voice_frame_marks_activity 5 (some ⟨true, true⟩) (some [1])
      ⟨0, false, []⟩).1 rfl rfl).2.2.1
  · exact (voice_frame_marks_activity 5 none (some [1]) ⟨0, false, []⟩).2 (Or.inl rfl)

/-- Phase of one `HotwordListener._process` task in the cooperative
scheduler: `ready` — about to execute its first atomic segment (the
`lock.locked()` check followed, with no intervening suspension point, by
acquisition); `working k` — holding the speaker's processing lock with `k`
suspension points (transcription await, callback await) still ahead;
`finished invoked` — returned, having invoked the hotword callback iff
`invoked`. -/
inductive ProcPhase
  | ready
  | working (k : Nat)
  | finished (invoked : Bool)
deriving DecidableEq, Repr

/-- Two concurrent `_process` tasks for the same speaker, sharing that
speaker's processing lock.  Task ids are `false` and `true`. -/
structure ProcSys where
  lock : Bool
  pa : ProcPhase
  pb : ProcPhase
deriving DecidableEq, Repr

def procPhase (s : ProcSys) (i : Bool) : ProcPhase :=
  if i then s.pb else s.pa

def setProcPhase (s : ProcSys) (i : Bool) (ph : ProcPhase) : ProcSys :=
  if i then { s with pb := ph } else { s with pa := ph }

/-- One scheduler step of task `i`: from `ready`, a held lock means return
immediately as a silent no-op (`if lock.locked(): return`), a free lock is
acquired in the same atomic segment (`async with lock` does not suspend when
the lock is free); `working` counts down suspension points; the last segment
invokes the callback (when `inv i` — the transcription succeeded, contained
the hotword, and produced a nonempty command) and releases the lock; a
finished task never moves again.  `dur i` is the number of suspension points
of task `i`'s critical section. -/
def procStep (dur : Bool → Nat) (inv : Bool → Bool) (s : ProcSys) (i : Bool) : ProcSys :=
  match procPhase s i with
  | ProcPhase.ready =>
    if s.lock then setProcPhase s i (ProcPhase.finished false)
    else { setProcPhase s i (ProcPhase.working (dur i)) with lock := true }
  | ProcPhase.working 0 =>
    { setProcPhase s i (ProcPhase.finished (inv i)) with lock := false }
  | ProcPhase.working (k + 1) => setProcPhase s i (ProcPhase.working k)
  | ProcPhase.finished _ => s

/-- Run both `_process` tasks under schedule `sched` (the ids of the tasks
that run, one atomic segment each) from the initial state. -/
def runProc (dur : Bool → Nat) (inv : Bool → Bool) (sched : List Bool) : ProcSys :=
  sched.foldl (procStep dur inv) ⟨false, ProcPhase.ready, ProcPhase.ready⟩

def isWorking : ProcPhase → Bool
  | ProcPhase.working _ => true
  | _ => false

def invokedFlag : ProcPhase → Bool
  | ProcPhase.finished true => true
  | _ => false

/-- Number of callback invocations performed by the two tasks so far. -/
def invokedCount (s : ProcSys) : Nat :=
  (if invokedFlag s.pa then 1 else 0) + (if invokedFlag s.pb then 1 else 0)

/-- The processing-lock invariant: the lock is held exactly when one of the
two tasks is inside its critical section, and never both at once. -/
def ProcInv (s : ProcSys) : Prop :=
  (s.lock = true ↔ (isWorking s.pa = true ∨ isWorking s.pb = true)) ∧
  ¬(isWorking s.pa = true ∧ isWorking s.pb = true)

lemma procInv_step (dur : Bool → Nat) (inv : Bool → Bool) (s : ProcSys) (i : Bool)
    (h : ProcInv s) : ProcInv (procStep dur inv s i) := by
  rcases s with ⟨lk, pa, pb⟩
  rcases h with ⟨hiff, hmux⟩
  cases i <;> [cases hpa : pa; cases hpb : pb] <;>
    subst_vars <;>
    first
      | (rename_i k; cases k <;> cases lk <;>
          simp_all [procStep, procPhase, setProcPhase, ProcInv, isWorking])
      | (cases lk <;>
          simp_all [procStep, procPhase, setProcPhase, ProcInv, isWorking])

lemma procInv_foldl (dur : Bool → Nat) (inv : Bool → Bool) (l : List Bool) (s : ProcSys)
    (h : ProcInv s) : ProcInv (l.foldl (procStep dur inv) s) := by
  induction l generalizing s with
  | nil => exact h
  | cons j t ih => exact ih (procStep dur inv s j) (procInv_step dur inv s j h)

lemma pb_finished_stable (dur : Bool → Nat) (inv : Bool → Bool) (l : List Bool) (s : ProcSys)
    (v : Bool) (h : s.pb = ProcPhase.finished v) :
    (l.foldl (procStep dur inv) s).pb = ProcPhase.finished v := by
  induction l generalizing s with
  | nil => exact h
  | cons j t ih =>
    refine ih (procStep dur inv s j) ?_
    rcases s with ⟨lk, pa, pb⟩
    cases j with
    | true => simp only [procStep, procPhase, if_pos] at *; rw [h]
    | false =>
      cases hpa : pa with
      | ready => cases lk <;> simp_all [procStep, procPhase, setProcPhase]
      | working k => cases k <;> simp_all [procStep, procPhase, setProcPhase]
      | finished w => simp_all [procStep, procPhase]

/-- C4.  At most one transcription task per speaker is ever inside its
critical section (third conjunct, over every schedule); a `_process` call
whose first segment runs while the speaker's lock is held finishes
immediately as a silent no-op, never works and never invokes the callback,
so two overlapping submissions produce at most one callback invocation. -/
theorem processing_lock_drops_overlap (dur : Bool → Nat) (inv : Bool → Bool)
    (pre post : List Bool)
    (hready : (runProc dur inv pre).pb = ProcPhase.ready)
    (hlock : (runProc dur inv pre).lock = true) :
    (runProc dur inv (pre ++ true :: post)).pb = ProcPhase.finished false ∧
    invokedCount (runProc dur inv (pre ++ true :: post)) ≤ 1 ∧
    (∀ sched : List Bool,
      ¬(isWorking (runProc dur inv sched).pa = true ∧
        isWorking (runProc dur inv sched).pb = true)) := by
  have hstepB : (procStep dur inv (runProc dur inv pre) true).pb
      = ProcPhase.finished false := by
    rcases hs : runProc dur inv pre with ⟨lk, pa, pb⟩
    rw [hs] at hready hlock
    simp only at hready hlock
    subst hready
    subst hlock
    simp [procStep, procPhase, setProcPhase]
  have hrun : runProc dur inv (pre ++ true :: post)
      = post.foldl (procStep dur inv) (procStep dur inv (runProc dur inv pre) true) := by
    unfold runProc
    rw [List.foldl_append]
    rfl
  have hfin : (runProc dur inv (pre ++ true :: post)).pb = ProcPhase.finished false := by
    rw [hrun]
    exact pb_finished_stable dur inv post _ false hstepB
  refine ⟨hfin, ?_, ?_⟩
  · unfold invokedCount
    rw [hfin]
    simp only [invokedFlag]
    split <;> simp
  · intro sched
    exact (procInv_foldl dur inv sched _ (by simp [ProcInv, isWorking])).2

/-- Witness for `processing_lock_drops_overlap`: task `false` acquires the
lock first; task `true`, scheduled while the lock is held, finishes as a
no-op without invoking the callback. -/
theorem processing_lock_drops_overlap_witness :
    (runProc (fun _ => 1) (fun _ => true) ([false] ++ true :: [])).pb
      = ProcPhase.finished false ∧
    invokedCount (runProc (fun _ => 1) (fun _ => true) ([false] ++ true :: [])) ≤ 1 := by
  have h := processing_lock_drops_overlap (fun _ => 1) (fun _ => true) [false] []
    (by rfl) (by rfl)
  exact ⟨h.1, h.2.1⟩

/-- Atomic segments of one `play_tts` call, in program order:
`ensure_voice_client`; TTS synthesis (before the playback lock!); then
inside `_play_audio`: lock acquisition, `_mark_active`, the temp-file write,
`voice_client.play`, the completion-poll ticks, the `finally:` temp-file
removal, and the lock release on leaving `async with`. -/
inductive PlayAct
  | ensure
  | synth
  | acquire
  | mark
  | writeTmp
  | playStart
  | poll
  | removeTmp
  | release
deriving DecidableEq, Repr

/-- The actions that `_play_audio` performs while holding the playback
lock. -/
def critAct : PlayAct → Bool
  | PlayAct.mark => true
  | PlayAct.writeTmp => true
  | PlayAct.playStart => true
  | PlayAct.poll => true
  | PlayAct.removeTmp => true
  | _ => false

/-- The action of a `play_tts` task with `n` completion-poll ticks at
program counter `pc`; `none` when the task has finished. -/
def progAct (n pc : Nat) : Option PlayAct :=
  if pc = 0 then some PlayAct.ensure
  else if pc = 1 then some PlayAct.synth
  else if pc = 2 then some PlayAct.acquire
  else if pc = 3 then some PlayAct.mark
  else if pc = 4 then some PlayAct.writeTmp
  else if pc = 5 then some PlayAct.playStart
  else if pc < 6 + n then some PlayAct.poll
  else if pc = 6 + n then some PlayAct.removeTmp
  else if pc = 7 + n then some PlayAct.release
  else none

/-- Two concurrent `play_tts` tasks on the same guild connection, sharing
that guild's playback lock (`lock` holds the id of the task inside
`async with lock`), with one program counter per task and the log of
executed actions. -/
structure PlaySys where
  lock : Option Bool
  pc : Bool → Nat
  log : List (Bool × PlayAct)

/-- The number of completion-poll ticks of each task (`false` and `true`). -/
def playPolls (nA nB : Nat) (i : Bool) : Nat :=
  if i then nB else nA

/-- One scheduler step of task `i`: `acquire` succeeds only when the lock is
free (otherwise the task stays blocked and nothing happens), `release` frees
the lock, every executed action is appended to the log. -/
def playStep (nA nB : Nat) (s : PlaySys) (i : Bool) : PlaySys :=
  match progAct (playPolls nA nB i) (s.pc i) with
  | none => s
  | some a =>
    let pc2 : Bool → Nat := fun j => if j = i then s.pc i + 1 else s.pc j
    if a = PlayAct.acquire then
      if s.lock = none then ⟨some i, pc2, s.log ++ [(i, a)]⟩ else s
    else if a = PlayAct.release then ⟨none, pc2, s.log ++ [(i, a)]⟩
    else ⟨s.lock, pc2, s.log ++ [(i, a)]⟩

/-- Run the two `play_tts` tasks under schedule `sched` from the initial
state. -/
def runPlay (nA nB : Nat) (sched : List Bool) : PlaySys :=
  sched.foldl (playStep nA nB) ⟨none, fun _ => 0, []⟩

/-- Replay one logged event against a current lock holder: an acquire is
legal only with no holder, a release and every under-lock playback action
only by the holder; `none` marks a discipline violation. -/
def stepHolder (h : Option Bool) (e : Bool × PlayAct) : Option (Option Bool) :=
  if e.2 = PlayAct.acquire then (if h = none then some (some e.1) else none)
  else if e.2 = PlayAct.release then (if h = some e.1 then some none else none)
  else if critAct e.2 then (if h = some e.1 then some h else none)
  else some h

/-- Replay a whole log; `some h` is the holder after the log, `none` a
holder-discipline violation somewhere in it. -/
def runHolder : Option Bool → List (Bool × PlayAct) → Option (Option Bool)
  | h, [] => some h
  | h, e :: rest =>
    match stepHolder h e with
    | none => none
    | some h2 => runHolder h2 rest

lemma runHolder_snoc (h : Option Bool) (l : List (Bool × PlayAct)) (e : Bool × PlayAct) :
    runHolder h (l ++ [e]) = (runHolder h l).bind (fun h2 => stepHolder h2 e) := by
  induction l generalizing h with
  | nil =>
    simp only [List.nil_append, runHolder]
    cases hse : stepHolder h e with
    | none => simp [runHolder, hse]
    | some h2 => simp [runHolder, hse]
  | cons x t ih =>
    simp only [List.cons_append, runHolder]
    cases hsx : stepHolder h x with
    | none => simp
    | some h2 => exact ih h2

/-- The playback-lock invariant: the log replays cleanly to the current
holder, and the lock is held by task `i` exactly when `i`'s program counter
is inside the critical section (past `acquire`, not yet past `release`). -/
def PlayInv (nA nB : Nat) (s : PlaySys) : Prop :=
  runHolder none s.log = some s.lock ∧
  ∀ i : Bool, (s.lock = some i ↔ (3 ≤ s.pc i ∧ s.pc i ≤ 7 + playPolls nA nB i))

lemma progAct_cases (n pc : Nat) (a : PlayAct) (h : progAct n pc = some a) :
    (a = PlayAct.ensure ∧ pc = 0) ∨ (a = PlayAct.synth ∧ pc = 1) ∨
    (a = PlayAct.acquire ∧ pc = 2) ∨ (critAct a = true ∧ 3 ≤ pc ∧ pc ≤ 6 + n) ∨
    (a = PlayAct.release ∧ pc = 7 + n) := by
  unfold progAct at h
  split_ifs at h with h0 h1 h2 h3 h4 h5 h6 h7 h8
  all_goals first
    | exact Option.noConfusion h
    | (injection h with h; subst h; simp [critAct]; omega)

lemma playStep_char (nA nB : Nat) (s : PlaySys) (i : Bool) (a : PlayAct)
    (hact : progAct (playPolls nA nB i) (s.pc i) = some a) :
    playStep nA nB s i =
      if a = PlayAct.acquire then
        (if s.lock = none then
          PlaySys.mk (some i) (fun j => if j = i then s.pc i + 1 else s.pc j) (s.log ++ [(i, a)])
        else s)
      else if a = PlayAct.release then
        PlaySys.mk none (fun j => if j = i then s.pc i + 1 else s.pc j) (s.log ++ [(i, a)])
      else
        PlaySys.mk s.lock (fun j => if j = i then s.pc i + 1 else s.pc j) (s.log ++ [(i, a)]) := by
  unfold playStep
  rw [hact]

lemma playInv_step (nA nB : Nat) (s : PlaySys) (i : Bool) (h : PlayInv nA nB s) :
    PlayInv nA nB (playStep nA nB s i) := by
  rcases h with ⟨hlog, hiff⟩
  cases hact : progAct (playPolls nA nB i) (s.pc i) with
  | none =>
    unfold playStep
    rw [hact]
    exact ⟨hlog, hiff⟩
  | some a =>
    have hchar := playStep_char nA nB s i a hact
    rcases progAct_cases _ _ a hact with ⟨ha, hpc⟩ | ⟨ha, hpc⟩ | ⟨ha, hpc⟩
      | ⟨hcrit, hpc1, hpc2⟩ | ⟨ha, hpc⟩
    · -- ensure, pc i = 0
      subst ha
      rw [hchar, if_neg (by simp), if_neg (by simp)]
      have hnot : s.lock ≠ some i := by
        intro hl
        have h3 := ((hiff i).mp hl).1
        omega
      refine ⟨?_, ?_⟩
      · rw [runHolder_snoc, hlog]
        simp [stepHolder, critAct]
      · intro j
        dsimp only
        by_cases hj : j = i
        · rw [hj]
          rw [if_pos rfl]
          constructor
          · intro hl
            exact absurd hl hnot
          · intro hb
            have h3 := hb.1
            omega
        · simp only [if_neg hj]
          exact hiff j
    · -- synth, pc i = 1
      subst ha
      rw [hchar, if_neg (by simp), if_neg (by simp)]
      have hnot : s.lock ≠ some i := by
        intro hl
        have h3 := ((hiff i).mp hl).1
        omega
      refine ⟨?_, ?_⟩
      · rw [runHolder_snoc, hlog]
        simp [stepHolder, critAct]
      · intro j
        dsimp only
        by_cases hj : j = i
        · rw [hj]
          rw [if_pos rfl]
          constructor
          · intro hl
            exact absurd hl hnot
          · intro hb
            have h3 := hb.1
            omega
        · simp only [if_neg hj]
          exact hiff j
    · -- acquire, pc i = 2
      subst ha
      rw [hchar, if_pos rfl]
      by_cases hl : s.lock = none
      · rw [if_pos hl]
        refine ⟨?_, ?_⟩
        · rw [runHolder_snoc, hlog, hl]
          simp [stepHolder]
        · intro j
          dsimp only
          by_cases hj : j = i
          · rw [hj]
            rw [if_pos rfl]
            constructor
            · intro hdummy
              exact ⟨by omega, by omega⟩
            · intro hdummy
              rfl
          · simp only [if_neg hj]
            constructor
            · intro he
              injection he with he
              exact absurd he.symm hj
            · intro hb
              have h2 := (hiff j).mpr hb
              rw [hl] at h2
              cases h2
      · rw [if_neg hl]
        exact ⟨hlog, hiff⟩
    · -- a critical action, 3 ≤ pc i ≤ 6 + polls
      have hlock : s.lock = some i := (hiff i).mpr ⟨hpc1, by omega⟩
      have ha1 : a ≠ PlayAct.acquire := by
        rintro rfl
        simp [critAct] at hcrit
      have ha2 : a ≠ PlayAct.release := by
        rintro rfl
        simp [critAct] at hcrit
      rw [hchar, if_neg ha1, if_neg ha2]
      refine ⟨?_, ?_⟩
      · rw [runHolder_snoc, hlog]
        simp [stepHolder, ha1, ha2, hcrit, hlock]
      · intro j
        dsimp only
        by_cases hj : j = i
        · rw [hj, hlock]
          rw [if_pos rfl]
          constructor
          · intro hdummy
            exact ⟨by omega, by omega⟩
          · intro hdummy
            rfl
        · simp only [if_neg hj]
          rw [hlock]
          constructor
          · intro he
            injection he with he
            exact absurd he.symm hj
          · intro hb
            have h2 := (hiff j).mpr hb
            rw [hlock] at h2
            injection h2 with h2
            exact absurd h2.symm hj
    · -- release, pc i = 7 + polls
      subst ha
      have hlock : s.lock = some i := (hiff i).mpr ⟨by omega, by omega⟩
      rw [hchar, if_neg (by simp), if_pos rfl]
      refine ⟨?_, ?_⟩
      · rw [runHolder_snoc, hlog]
        simp [stepHolder, hlock]
      · intro j
        dsimp only
        by_cases hj : j = i
        · rw [hj]
          rw [if_pos rfl]
          constructor
          · intro he
            cases he
          · intro hb
            have h7 := hb.2
            omega
        · simp only [if_neg hj]
          constructor
          · intro he
            cases he
          · intro hb
            have h2 := (hiff j).mpr hb
            rw [hlock] at h2
            injection h2 with h2
            exact absurd h2.symm hj

lemma playInv_foldl (nA nB : Nat) (l : List Bool) (s : PlaySys) (h : PlayInv nA nB s) :
    PlayInv nA nB (l.foldl (playStep nA nB) s) := by
  induction l generalizing s with
  | nil => exact h
  | cons x t ih => exact ih (playStep nA nB s x) (playInv_step nA nB s x h)

lemma playInv_run (nA nB : Nat) (sched : List Bool) : PlayInv nA nB (runPlay nA nB sched) := by
  refine playInv_foldl nA nB sched _ ?_
  refine ⟨rfl, ?_⟩
  intro j
  constructor
  · intro he
    cases he
  · intro hb
    exact absurd hb.1 (by simp)

/-- C2 (amended).  Under every interleaving of two concurrent `play_tts`
calls on the same connection, the log obeys the playback-lock discipline
(`runHolder` finds no violation): every under-lock playback action — the
activity mark, temp-file write, playback start, completion polls and
temp-file removal — is performed by the task currently holding the lock, a
task acquires the lock only when it is free, and hence the later call's
playback begins only after the earlier call's poll loop has exited and
released the lock; moreover the two tasks are never simultaneously inside
their playback critical sections.  TTS synthesis, however, happens before
the lock is acquired, so it is NOT serialized behind the other call's
playback (see the counterexample). -/
theorem playback_lock_serializes (nA nB : Nat) (sched : List Bool) :
    (runHolder none (runPlay nA nB sched).log).isSome = true ∧
    ¬(3 ≤ (runPlay nA nB sched).pc false ∧ (runPlay nA nB sched).pc false ≤ 7 + nA ∧
      3 ≤ (runPlay nA nB sched).pc true ∧ (runPlay nA nB sched).pc true ≤ 7 + nB) := by
  have hinv := playInv_run nA nB sched
  constructor
  · rw [hinv.1]
    rfl
  · rintro ⟨h1, h2, h3, h4⟩
    have ha := (hinv.2 false).mpr ⟨h1, by simpa [playPolls] using h2⟩
    have hb := (hinv.2 true).mpr ⟨h3, by simpa [playPolls] using h4⟩
    rw [ha] at hb
    injection hb with hb
    cases hb

/-- Counterexample to C2 as stated.  `play_tts` synthesizes before
`_play_audio` acquires the playback lock, so under the schedule below the
second call's TTS synthesis runs while the first call still holds the lock
inside its playback (its `release` — the poll-loop exit — has not yet
happened).  Only playback is serialized, not synthesis. -/
theorem second_synth_during_first_playback_counterexample :
    (runPlay 0 0 [false, false, false, false, true, true]).lock = some false ∧
    (true, PlayAct.synth) ∈ (runPlay 0 0 [false, false, false, false, true, true]).log ∧
    (false, PlayAct.release) ∉ (runPlay 0 0 [false, false, false, false, true, true]).log := by
  decide
